import Mathlib

/-!
# Overview page of the wallet GUI (`src/qt/overviewpage.cpp`)

A shallow embedding of the `OverviewPage` widget: its members and the widgets it
drives become one record, every member function becomes a function on that
record, and the body of the worker thread spawned by `startMining` becomes two
step functions (loop head, return of the RPC call) that a scheduler may
interleave with the calls made on the GUI thread.

Conventions
* a pointer is an `Option`: `none` is `nullptr`;
* `tr(...)` is the identity on the source string;
* `int` is `Int` wrapped to 32 bits where arithmetic happens, `CAmount` is
  `Int` wrapped to 64 bits;
* `std::terminate` is the result `none` of a function returning `Option`.
-/

/-- The row limit of the recent-transaction list: `#define NUM_ITEMS 5`. -/
def NUM_ITEMS : Nat := 5

/-- The icon size: `#define DECORATION_SIZE 54`. -/
def DECORATION_SIZE : Nat := 54

/-- Value of an `int` expression: two's complement wrap to 32 bits. -/
def wrapInt32 (x : Int) : Int := (x + 2 ^ 31) % 2 ^ 32 - 2 ^ 31

/-- Value of a `CAmount` (`int64_t`) expression: two's complement wrap to 64 bits. -/
def wrapInt64 (x : Int) : Int := (x + 2 ^ 63) % 2 ^ 64 - 2 ^ 63

/-- The display unit handed to the formatter (`BitcoinUnit`, declared outside
this file); only its identity matters here, so it is its enumerator's number. -/
abbrev BitcoinUnit := Nat

/-- The separator styles of `BitcoinUnits::SeparatorStyle`. -/
inductive SeparatorStyle where
  | NEVER
  | STANDARD
  | ALWAYS
  deriving DecidableEq, Repr

/-- The record `interfaces::WalletBalances`, restricted to the three amounts
`setBalance` reads. -/
structure WalletBalances where
  balance : Int
  unconfirmed_balance : Int
  immature_balance : Int
  deriving DecidableEq, Repr

/-- What a label shows: a plain string, or the result of
`BitcoinUnits::formatWithPrivacy(unit, amount, separators, privacy)`, kept as
the call's arguments because the formatter lives outside this file. -/
inductive LabelText where
  | plain (text : String)
  | formatWithPrivacy (unit : BitcoinUnit) (amount : Int) (separators : SeparatorStyle)
      (privacy : Bool)
  deriving DecidableEq, Repr

/-- One row of the transaction table model, restricted to what the overview
list depends on: the date it is sorted by and whether the filter proxy counts
it as inactive. -/
structure TransactionRecord where
  date : Int
  address : String
  amount : Int
  inactive : Bool
  deriving DecidableEq, Repr

/-- Columns of `TransactionTableModel` used by this file. -/
inductive Column where
  | Date
  | ToAddress
  deriving DecidableEq, Repr

/-- The two orders of `Qt::SortOrder`. -/
inductive SortOrder where
  | AscendingOrder
  | DescendingOrder
  deriving DecidableEq, Repr

/-- The filter proxy between the transaction table model and the list view:
its source rows and the settings `setWalletModel` gives it. -/
structure TransactionFilterProxy where
  sourceModel : List TransactionRecord
  dynamicSortFilter : Bool
  showInactive : Bool
  sortColumn : Option Column
  sortOrder : SortOrder
  deriving DecidableEq, Repr

/-- A freshly constructed proxy: no source, nothing sorted, inactive rows shown. -/
def TransactionFilterProxy.new : TransactionFilterProxy :=
  { sourceModel := [], dynamicSortFilter := false, showInactive := true,
    sortColumn := none, sortOrder := SortOrder.AscendingOrder }

/-- Modelled from the spec: the row order of the filter proxy (the "filtered
recent-transaction list"), whose implementation (`TransactionFilterProxy`, on top
of the toolkit's sort-filter proxy) is not part of this file. Inactive rows are
dropped unless shown, and a proxy sorted on the date column lists its rows by
date in the chosen order (stably). -/
def TransactionFilterProxy.rows (f : TransactionFilterProxy) : List TransactionRecord :=
  let accepted := f.sourceModel.filter (fun r => f.showInactive || !r.inactive)
  match f.sortColumn, f.sortOrder with
  | some Column.Date, SortOrder.DescendingOrder =>
      accepted.insertionSort (fun a b => b.date ≤ a.date)
  | some Column.Date, SortOrder.AscendingOrder =>
      accepted.insertionSort (fun a b => a.date ≤ b.date)
  | _, _ => accepted

/-- The number of rows of the proxy, `filter->rowCount()`. -/
def TransactionFilterProxy.rowCount (f : TransactionFilterProxy) : Nat := f.rows.length

/-- The options model: the display unit is all this file reads from it. -/
structure OptionsModel where
  displayUnit : BitcoinUnit
  deriving DecidableEq, Repr

/-- The wallet model as seen from the overview page. -/
structure WalletModel where
  optionsModel : Option OptionsModel
  cachedBalance : WalletBalances
  transactionTableModel : List TransactionRecord
  deriving DecidableEq, Repr

/-- The client model as seen from the overview page. -/
structure ClientModel where
  statusBarWarnings : String
  deriving DecidableEq, Repr

/-- One call of `node().executeRpc(command, params, uri)`; `params` are the
strings handed to `RPCConvertValues`. -/
structure RpcCall where
  command : String
  params : List String
  uri : String
  deriving DecidableEq, Repr

/-- How the body of the inner `try` ends: the RPC call returns, or something in
it throws and the `catch (...)` runs. -/
inductive RpcOutcome where
  | returns
  | throws
  deriving DecidableEq, Repr

/-- Where the worker thread stands: about to test the loop condition, inside
`executeRpc`, or past the loop (the thread function has returned). -/
inductive WorkerPc where
  | loopHead
  | inRpc
  | finished
  deriving DecidableEq, Repr

/-- The worker thread behind `m_mining_thread`: its local counter and its
program point. -/
structure MiningWorker where
  blocks_mined : Int
  pc : WorkerPc
  deriving DecidableEq, Repr

/-- The widgets of `Ui::OverviewPage` this file reads or writes. A button or
spin box is its enabled flag, a label its text and visibility, and the list view
is the flag "its model is the filter proxy" together with its set of hidden rows. -/
structure Ui where
  labelBalance : LabelText
  labelUnconfirmed : LabelText
  labelImmature : LabelText
  labelTotal : LabelText
  labelImmatureVisible : Bool
  labelImmatureTextVisible : Bool
  labelAlerts : String
  labelAlertsVisible : Bool
  labelWalletStatusVisible : Bool
  labelTransactionsStatusVisible : Bool
  listTransactionsHasFilter : Bool
  listTransactionsHidden : List Nat
  listTransactionsVisible : Bool
  labelMiningStatus : String
  startMiningButton : Bool
  stopMiningButton : Bool
  numThreadsBox : Bool
  numThreadsBoxValue : Int
  deriving DecidableEq, Repr

/-- The overview page: its members, its widgets, and three pieces of
bookkeeping about what it did to the outside world (`eventQueue`: the label
updates the worker posted to the GUI thread and that still wait there;
`rpcLog`: the RPC calls issued so far; `threadsSpawned`: how many threads were
ever constructed). `m_mining_thread` is `some` exactly when the `std::thread`
is joinable. -/
structure OverviewPage where
  ui : Ui
  clientModel : Option ClientModel
  walletModel : Option WalletModel
  m_privacy : Bool
  filter : Option TransactionFilterProxy
  txdelegateUnit : BitcoinUnit
  m_mining_active : Bool
  m_should_stop_mining : Bool
  m_num_mining_threads : Int
  m_mining_address : String
  m_mining_thread : Option MiningWorker
  eventQueue : List String
  rpcLog : List RpcCall
  threadsSpawned : Nat
  deriving DecidableEq, Repr

namespace OverviewPage

/-- The list view's `setRowHidden(row, hide)`: add the row to the hidden set or
take it out. -/
def setRowHidden (hidden : List Nat) (row : Nat) (hide : Bool) : List Nat :=
  if hide then (if row ∈ hidden then hidden else row :: hidden)
  else hidden.filter (fun r => r ≠ row)

/-- The list view's `isRowHidden(row)`. -/
def isRowHidden (hidden : List Nat) (row : Nat) : Bool := decide (row ∈ hidden)

/-- The member function `showOutOfSyncWarning(fShow)`. -/
def showOutOfSyncWarning (fShow : Bool) (p : OverviewPage) : OverviewPage :=
  { p with ui := { p.ui with labelWalletStatusVisible := fShow,
                             labelTransactionsStatusVisible := fShow } }

/-- Modelled from the spec: the member initialisers of the class declaration,
which is not part of this file (null models, no filter, privacy off, the
mining control idle with its stop flag clear and a thread that is not
joinable). `form` is what `setupUi` builds; the constructor body then shows the
out-of-sync warnings and disables the three mining widgets. -/
def init (form : Ui) : OverviewPage :=
  let p : OverviewPage :=
    { ui := form, clientModel := none, walletModel := none, m_privacy := false,
      filter := none, txdelegateUnit := 0, m_mining_active := false,
      m_should_stop_mining := false, m_num_mining_threads := 1,
      m_mining_address := "", m_mining_thread := none, eventQueue := [],
      rpcLog := [], threadsSpawned := 0 }
  let p := showOutOfSyncWarning true p
  { p with ui := { p.ui with startMiningButton := false, stopMiningButton := false,
                             numThreadsBox := false } }

/-- The slot `setBalance(balances)`: the display unit comes through
`walletModel->getOptionsModel()`, so a null pointer on that path is undefined
behaviour (`none`). -/
def setBalance (balances : WalletBalances) (p : OverviewPage) : Option OverviewPage :=
  match p.walletModel with
  | none => none
  | some w =>
    match w.optionsModel with
    | none => none
    | some o =>
      let unit := o.displayUnit
      let showImmature := balances.immature_balance != 0
      some { p with ui := { p.ui with
        labelBalance := LabelText.formatWithPrivacy unit balances.balance
          SeparatorStyle.ALWAYS p.m_privacy,
        labelUnconfirmed := LabelText.formatWithPrivacy unit balances.unconfirmed_balance
          SeparatorStyle.ALWAYS p.m_privacy,
        labelImmature := LabelText.formatWithPrivacy unit balances.immature_balance
          SeparatorStyle.ALWAYS p.m_privacy,
        labelTotal := LabelText.formatWithPrivacy unit
          (wrapInt64 (wrapInt64 (balances.balance + balances.unconfirmed_balance)
            + balances.immature_balance))
          SeparatorStyle.ALWAYS p.m_privacy,
        labelImmatureVisible := showImmature,
        labelImmatureTextVisible := showImmature } }

/-- The slot `updateAlerts(warnings)`. -/
def updateAlerts (warnings : String) (p : OverviewPage) : OverviewPage :=
  { p with ui := { p.ui with labelAlertsVisible := !warnings.isEmpty,
                             labelAlerts := warnings } }

/-- The member function `setClientModel(model)`; the font of the labels is not
modelled. -/
def setClientModel (model : Option ClientModel) (p : OverviewPage) : OverviewPage :=
  let p := { p with clientModel := model }
  match model with
  | some m => updateAlerts m.statusBarWarnings p
  | none => p

/-- The loop of `LimitTransactionRows`, `for (i = from; i < rowCount; ++i)`,
with `fuel` the number of iterations still to run. -/
def limitRowsLoop (fuel : Nat) (i : Nat) (hidden : List Nat) : List Nat :=
  match fuel with
  | 0 => hidden
  | fuel + 1 => limitRowsLoop fuel (i + 1) (setRowHidden hidden i (decide (i ≥ NUM_ITEMS)))

/-- The slot `LimitTransactionRows()`: when the filter exists and is the model of the
list, every row below `rowCount` is hidden or shown by its index. -/
def LimitTransactionRows (p : OverviewPage) : OverviewPage :=
  match p.filter with
  | some f =>
    if p.ui.listTransactionsHasFilter then
      { p with ui := { p.ui with
          listTransactionsHidden := limitRowsLoop f.rowCount 0 p.ui.listTransactionsHidden } }
    else p
  | none => p

/-- The slot `updateDisplayUnit()`. -/
def updateDisplayUnit (p : OverviewPage) : Option OverviewPage :=
  match p.walletModel with
  | some w =>
    match w.optionsModel with
    | some o =>
      let q := if w.cachedBalance.balance != -1 then setBalance w.cachedBalance p else some p
      q.map (fun q => { q with txdelegateUnit := o.displayUnit })
    | none => some p
  | none => some p

/-- The member function `setWalletModel(model)`. Giving the list a new model
clears its hidden rows. -/
def setWalletModel (model : Option WalletModel) (p : OverviewPage) : Option OverviewPage := do
  let p := { p with walletModel := model }
  let p ←
    match model with
    | some m =>
      match m.optionsModel with
      | some _ =>
        let f := TransactionFilterProxy.new
        let f := { f with sourceModel := m.transactionTableModel }
        let f := { f with dynamicSortFilter := true }
        let f := { f with showInactive := false }
        let f := { f with sortColumn := some Column.Date,
                          sortOrder := SortOrder.DescendingOrder }
        let p := { p with filter := some f }
        let p := { p with ui := { p.ui with listTransactionsHasFilter := true,
                                            listTransactionsHidden := [] } }
        let p := LimitTransactionRows p
        setBalance m.cachedBalance p
      | none => some p
    | none => some p
  let p ← updateDisplayUnit p
  match model with
  | some _ => some { p with ui := { p.ui with startMiningButton := true, numThreadsBox := true } }
  | none => some p

/-- The request every iteration of the mining loop sends: `generate` with the
one argument `"1"` and an empty URI. -/
def generateCall : RpcCall := { command := "generate", params := ["1"], uri := "" }

/-- The call `QMetaObject::invokeMethod(this, ...)` of a functor that sets the
text of `labelMiningStatus`, made from the worker thread: the update is queued
for the GUI thread. -/
def postStatus (text : String) (p : OverviewPage) : OverviewPage :=
  { p with eventQueue := p.eventQueue ++ [text] }

/-- The GUI thread runs the oldest queued label update. -/
def processEvent (p : OverviewPage) : OverviewPage :=
  match p.eventQueue with
  | [] => p
  | text :: rest =>
    { p with eventQueue := rest, ui := { p.ui with labelMiningStatus := text } }

/-- The GUI thread runs every queued label update, oldest first: each one
overwrites the status label. -/
def processEvents (p : OverviewPage) : OverviewPage :=
  { p with eventQueue := [],
           ui := { p.ui with labelMiningStatus :=
                     p.eventQueue.foldl (fun _ text => text) p.ui.labelMiningStatus } }

/-- The end of the thread function: `m_mining_active = false;` after the loop. -/
def workerExit (w : MiningWorker) (p : OverviewPage) : OverviewPage :=
  { p with m_mining_active := false,
           m_mining_thread := some { w with pc := WorkerPc.finished } }

/-- The text `tr("Mining... Mined %1 blocks").arg(blocks_mined)`. -/
def minedText (blocks_mined : Int) : String :=
  "Mining... Mined " ++ toString blocks_mined ++ " blocks"

/-- The worker at the head of its loop: test the stop flag, test the client
model, and issue the RPC call. A worker that is elsewhere does nothing. The
outer handler of the loop body ("Mining error") guards only statements that
raise nothing but a failed allocation, which is left out. -/
def workerLoopHead (p : OverviewPage) : OverviewPage :=
  match p.m_mining_thread with
  | some w =>
    match w.pc with
    | WorkerPc.loopHead =>
      if p.m_should_stop_mining then workerExit w p
      else
        match p.clientModel with
        | none => workerExit w (postStatus "No client model" p)
        | some _ =>
          { p with rpcLog := p.rpcLog ++ [generateCall],
                   m_mining_thread := some { w with pc := WorkerPc.inRpc } }
    | _ => p
  | none => p

/-- The worker when its RPC call ends: on return it counts the block, posts
the status and sleeps, back to the loop head; on an exception it posts the
error and leaves the loop. A worker that is elsewhere does nothing. -/
def workerRpcDone (o : RpcOutcome) (p : OverviewPage) : OverviewPage :=
  match p.m_mining_thread with
  | some w =>
    match w.pc with
    | WorkerPc.inRpc =>
      match o with
      | RpcOutcome.returns =>
        let blocks_mined := wrapInt32 (w.blocks_mined + 1)
        let p := postStatus (minedText blocks_mined) p
        { p with
          m_mining_thread := some { blocks_mined := blocks_mined, pc := WorkerPc.loopHead } }
      | RpcOutcome.throws =>
        workerExit w (postStatus "Error mining block" p)
    | _ => p
  | none => p

/-- The worker running on its own, the RPC calls ending as `outcomes` say, until
it has left the loop or waits for an outcome the list no longer has. -/
def runWorker (outcomes : List RpcOutcome) (p : OverviewPage) : OverviewPage :=
  match outcomes with
  | [] => workerLoopHead p
  | o :: rest => runWorker rest (workerRpcDone o (workerLoopHead p))

/-- The call `m_mining_thread.join()`: the worker runs to its end (`inflight` is how the
RPC call it may be in ends), after which the thread is no longer joinable. -/
def join (inflight : RpcOutcome) (p : OverviewPage) : OverviewPage :=
  { (runWorker [inflight] p) with m_mining_thread := none }

/-- The slot `startMining()`. Assigning to `m_mining_thread` while it is joinable calls
`std::terminate` (`none`). -/
def startMining (p : OverviewPage) : Option OverviewPage :=
  if p.m_mining_active then some p
  else
    match p.walletModel with
    | none =>
      some { p with ui := { p.ui with labelMiningStatus := "No wallet available for mining" } }
    | some _ =>
      let address := "SimulatedMiningAddress"
      if address.isEmpty then
        some { p with ui := { p.ui with labelMiningStatus := "Failed to get mining address" } }
      else
        let p := { p with m_mining_address := address,
                          m_num_mining_threads := p.ui.numThreadsBoxValue,
                          m_should_stop_mining := false,
                          m_mining_active := true }
        let p := { p with ui := { p.ui with labelMiningStatus := "Mining...",
                                            startMiningButton := false,
                                            stopMiningButton := true,
                                            numThreadsBox := false } }
        let p := { p with threadsSpawned := p.threadsSpawned + 1 }
        match p.m_mining_thread with
        | some _ => none
        | none =>
          some { p with
            m_mining_thread := some { blocks_mined := 0, pc := WorkerPc.loopHead } }

/-- The slot `stopMining()`; `inflight` is how the RPC call the worker may be in ends
while the GUI thread waits in `join`. -/
def stopMining (inflight : RpcOutcome) (p : OverviewPage) : OverviewPage :=
  if !p.m_mining_active then p
  else
    let p := { p with m_should_stop_mining := true }
    let p := if p.m_mining_thread.isSome then join inflight p else p
    let p := { p with m_mining_active := false }
    { p with ui := { p.ui with labelMiningStatus := "Mining stopped",
                               startMiningButton := true,
                               stopMiningButton := false,
                               numThreadsBox := true } }

/-- The slot `updateMiningStatus()`. -/
def updateMiningStatus (p : OverviewPage) : OverviewPage :=
  if p.m_mining_active then { p with m_num_mining_threads := p.ui.numThreadsBoxValue }
  else p

/-- The rows the list view shows: the rows of the proxy, in its order, whose
index is not hidden. -/
def visibleRows (p : OverviewPage) : List TransactionRecord :=
  match p.filter with
  | some f =>
    if p.ui.listTransactionsHasFilter then
      (List.range f.rowCount).filterMap
        (fun i => if isRowHidden p.ui.listTransactionsHidden i then none else f.rows[i]?)
    else []
  | none => []

/-- The user picks `value` in the thread-count box: when the value changes, the
box takes it and its `valueChanged` signal runs `updateMiningStatus`. -/
def setNumThreads (value : Int) (p : OverviewPage) : OverviewPage :=
  if value = p.ui.numThreadsBoxValue then p
  else updateMiningStatus { p with ui := { p.ui with numThreadsBoxValue := value } }

/-- The page with the thread count blanked out, in the box and in
`m_num_mining_threads`: what is left is everything the thread count is not. -/
def forgetThreadCount (p : OverviewPage) : OverviewPage :=
  { p with m_num_mining_threads := 0, ui := { p.ui with numThreadsBoxValue := 0 } }

/-- The value of the worker's counter `blocks_mined` after `n` more
iterations that ended well, starting from `b`: `n` times `blocks_mined++`. -/
def blocksAfter (b : Int) : Nat → Int
  | 0 => b
  | n + 1 => blocksAfter (wrapInt32 (b + 1)) n

/-- The status texts the worker posts during `n` iterations that end well,
its counter starting from `b`. -/
def minedTexts (b : Int) : Nat → List String
  | 0 => []
  | n + 1 => minedText (wrapInt32 (b + 1)) :: minedTexts (wrapInt32 (b + 1)) n

/-- A form as the designer file could build it: empty labels, everything
visible and enabled, one mining thread selected. -/
def exampleForm : Ui :=
  { labelBalance := LabelText.plain "", labelUnconfirmed := LabelText.plain "",
    labelImmature := LabelText.plain "", labelTotal := LabelText.plain "",
    labelImmatureVisible := true, labelImmatureTextVisible := true,
    labelAlerts := "", labelAlertsVisible := true,
    labelWalletStatusVisible := true, labelTransactionsStatusVisible := true,
    listTransactionsHasFilter := false, listTransactionsHidden := [],
    listTransactionsVisible := true, labelMiningStatus := "",
    startMiningButton := true, stopMiningButton := true, numThreadsBox := true,
    numThreadsBoxValue := 1 }

/-- A wallet with an options model, a balance and seven transactions, one of
them inactive. -/
def exampleWallet : WalletModel :=
  { optionsModel := some { displayUnit := 0 },
    cachedBalance := { balance := 700, unconfirmed_balance := 20, immature_balance := 0 },
    transactionTableModel :=
      [ { date := 30, address := "a", amount := 1, inactive := false },
        { date := 10, address := "b", amount := 2, inactive := false },
        { date := 70, address := "c", amount := 3, inactive := false },
        { date := 50, address := "d", amount := 4, inactive := true },
        { date := 20, address := "e", amount := 5, inactive := false },
        { date := 60, address := "f", amount := 6, inactive := false },
        { date := 40, address := "g", amount := 7, inactive := false } ] }

/-- A client model without warnings. -/
def exampleClient : ClientModel := { statusBarWarnings := "" }

/-- The page once it is constructed and has been given `exampleWallet`, with
or without a client model. -/
def examplePage (withClient : Bool) : Option OverviewPage :=
  let p := init exampleForm
  let p := if withClient then setClientModel (some exampleClient) p else p
  setWalletModel (some exampleWallet) p

/-- The example page with a client model and a wallet model, idle. -/
def exampleIdle : OverviewPage :=
  match examplePage true with
  | some p => p
  | none => init exampleForm

/-- The example page with a client model, after `startMining()`: a mining
session whose worker stands at the head of its loop. -/
def exampleMining : OverviewPage :=
  match (examplePage true).bind startMining with
  | some q => q
  | none => init exampleForm

end OverviewPage

/-! ## Arithmetic of the machine integers -/

namespace OverviewPage

theorem wrapInt32_of_range (x : Int) (h0 : -2 ^ 31 ≤ x) (h1 : x < 2 ^ 31) :
    wrapInt32 x = x := by
  unfold wrapInt32
  omega

theorem wrapInt32_succ (x : Int) : wrapInt32 (wrapInt32 x + 1) = wrapInt32 (x + 1) := by
  unfold wrapInt32
  omega

theorem wrapInt64_add (x y : Int) : wrapInt64 (wrapInt64 x + y) = wrapInt64 (x + y) := by
  unfold wrapInt64
  omega

/-! ## The mining control on the GUI thread -/

theorem startMining_of_active (p : OverviewPage) (h : p.m_mining_active = true) :
    startMining p = some p := by
  simp [startMining, h]

theorem startMining_of_no_wallet (p : OverviewPage) (h : p.m_mining_active = false)
    (hw : p.walletModel = none) :
    startMining p =
      some { p with ui := { p.ui with labelMiningStatus := "No wallet available for mining" } } := by
  simp [startMining, h, hw]

theorem address_not_empty : String.isEmpty "SimulatedMiningAddress" = false := by
  decide

theorem startMining_of_idle (p : OverviewPage) (w : WalletModel)
    (h : p.m_mining_active = false) (hw : p.walletModel = some w)
    (ht : p.m_mining_thread = none) :
    startMining p =
      some { p with
        m_mining_address := "SimulatedMiningAddress",
        m_num_mining_threads := p.ui.numThreadsBoxValue,
        m_should_stop_mining := false,
        m_mining_active := true,
        ui := { p.ui with labelMiningStatus := "Mining...", startMiningButton := false,
                          stopMiningButton := true, numThreadsBox := false },
        threadsSpawned := p.threadsSpawned + 1,
        m_mining_thread := some { blocks_mined := 0, pc := WorkerPc.loopHead } } := by
  simp [startMining, h, hw, ht, address_not_empty]

theorem startMining_of_unjoined (p : OverviewPage) (w : WalletModel) (t : MiningWorker)
    (h : p.m_mining_active = false) (hw : p.walletModel = some w)
    (ht : p.m_mining_thread = some t) :
    startMining p = none := by
  simp [startMining, h, hw, ht, address_not_empty]

/-! ## The worker thread, step by step -/

theorem workerLoopHead_of_finished (p : OverviewPage) (b : Int)
    (h : p.m_mining_thread = some { blocks_mined := b, pc := WorkerPc.finished }) :
    workerLoopHead p = p := by
  simp [workerLoopHead, h]

theorem workerRpcDone_of_finished (o : RpcOutcome) (p : OverviewPage) (b : Int)
    (h : p.m_mining_thread = some { blocks_mined := b, pc := WorkerPc.finished }) :
    workerRpcDone o p = p := by
  simp [workerRpcDone, h]

theorem runWorker_of_finished (outcomes : List RpcOutcome) (p : OverviewPage) (b : Int)
    (h : p.m_mining_thread = some { blocks_mined := b, pc := WorkerPc.finished }) :
    runWorker outcomes p = p := by
  induction outcomes with
  | nil => simp [runWorker, workerLoopHead_of_finished p b h]
  | cons o rest ih =>
    simp [runWorker, workerLoopHead_of_finished p b h, workerRpcDone_of_finished o p b h, ih]

theorem workerLoopHead_of_stop (p : OverviewPage) (b : Int)
    (h : p.m_mining_thread = some { blocks_mined := b, pc := WorkerPc.loopHead })
    (hs : p.m_should_stop_mining = true) :
    workerLoopHead p =
      { p with m_mining_active := false,
               m_mining_thread := some { blocks_mined := b, pc := WorkerPc.finished } } := by
  simp [workerLoopHead, workerExit, h, hs]

theorem workerLoopHead_of_no_client (p : OverviewPage) (b : Int)
    (h : p.m_mining_thread = some { blocks_mined := b, pc := WorkerPc.loopHead })
    (hs : p.m_should_stop_mining = false) (hc : p.clientModel = none) :
    workerLoopHead p =
      { p with eventQueue := p.eventQueue ++ ["No client model"],
               m_mining_active := false,
               m_mining_thread := some { blocks_mined := b, pc := WorkerPc.finished } } := by
  simp [workerLoopHead, workerExit, postStatus, h, hs, hc]

theorem workerLoopHead_of_running (p : OverviewPage) (b : Int) (c : ClientModel)
    (h : p.m_mining_thread = some { blocks_mined := b, pc := WorkerPc.loopHead })
    (hs : p.m_should_stop_mining = false) (hc : p.clientModel = some c) :
    workerLoopHead p =
      { p with rpcLog := p.rpcLog ++ [generateCall],
               m_mining_thread := some { blocks_mined := b, pc := WorkerPc.inRpc } } := by
  simp [workerLoopHead, h, hs, hc]

theorem workerLoopHead_of_inRpc (p : OverviewPage) (b : Int)
    (h : p.m_mining_thread = some { blocks_mined := b, pc := WorkerPc.inRpc }) :
    workerLoopHead p = p := by
  simp [workerLoopHead, h]

theorem workerRpcDone_returns (p : OverviewPage) (b : Int)
    (h : p.m_mining_thread = some { blocks_mined := b, pc := WorkerPc.inRpc }) :
    workerRpcDone RpcOutcome.returns p =
      { p with eventQueue := p.eventQueue ++ [minedText (wrapInt32 (b + 1))],
               m_mining_thread :=
                 some { blocks_mined := wrapInt32 (b + 1), pc := WorkerPc.loopHead } } := by
  simp [workerRpcDone, postStatus, h]

theorem workerRpcDone_throws (p : OverviewPage) (b : Int)
    (h : p.m_mining_thread = some { blocks_mined := b, pc := WorkerPc.inRpc }) :
    workerRpcDone RpcOutcome.throws p =
      { p with eventQueue := p.eventQueue ++ ["Error mining block"],
               m_mining_active := false,
               m_mining_thread := some { blocks_mined := b, pc := WorkerPc.finished } } := by
  simp [workerRpcDone, workerExit, postStatus, h]

/-- One whole iteration that ends well, from the loop head back to the loop head. -/
theorem runWorker_cons_returns (rest : List RpcOutcome) (p : OverviewPage) (b : Int)
    (c : ClientModel)
    (h : p.m_mining_thread = some { blocks_mined := b, pc := WorkerPc.loopHead })
    (hs : p.m_should_stop_mining = false) (hc : p.clientModel = some c) :
    runWorker (RpcOutcome.returns :: rest) p =
      runWorker rest
        { p with rpcLog := p.rpcLog ++ [generateCall],
                 eventQueue := p.eventQueue ++ [minedText (wrapInt32 (b + 1))],
                 m_mining_thread :=
                   some { blocks_mined := wrapInt32 (b + 1), pc := WorkerPc.loopHead } } := by
  rw [runWorker, workerLoopHead_of_running p b c h hs hc, workerRpcDone_returns _ b rfl]

/-- The iteration whose RPC call throws: the worker leaves the loop and whatever
outcomes remain are never asked for. -/
theorem runWorker_cons_throws (rest : List RpcOutcome) (p : OverviewPage) (b : Int)
    (c : ClientModel)
    (h : p.m_mining_thread = some { blocks_mined := b, pc := WorkerPc.loopHead })
    (hs : p.m_should_stop_mining = false) (hc : p.clientModel = some c) :
    runWorker (RpcOutcome.throws :: rest) p =
      { p with rpcLog := p.rpcLog ++ [generateCall],
               eventQueue := p.eventQueue ++ ["Error mining block"],
               m_mining_active := false,
               m_mining_thread := some { blocks_mined := b, pc := WorkerPc.finished } } := by
  rw [runWorker, workerLoopHead_of_running p b c h hs hc, workerRpcDone_throws _ b rfl]
  exact runWorker_of_finished rest _ b rfl

/-! ## The worker thread over whole runs -/

theorem wrapInt32_add (x y : Int) : wrapInt32 (wrapInt32 x + y) = wrapInt32 (x + y) := by
  unfold wrapInt32
  omega

theorem blocksAfter_succ (b : Int) (n : Nat) :
    blocksAfter b (n + 1) = wrapInt32 (b + (n + 1 : Nat)) := by
  induction n generalizing b with
  | zero => simp [blocksAfter]
  | succ n ih =>
    rw [blocksAfter, ih, wrapInt32_add]
    congr 1
    push_cast
    ring

theorem minedTexts_length (b : Int) (n : Nat) : (minedTexts b n).length = n := by
  induction n generalizing b with
  | zero => rfl
  | succ n ih => simp [minedTexts, ih]

theorem minedTexts_getLast (b : Int) (n : Nat) :
    (minedTexts b (n + 1)).getLast? = some (minedText (blocksAfter b (n + 1))) := by
  induction n generalizing b with
  | zero => simp [minedTexts, blocksAfter]
  | succ n ih =>
    rw [minedTexts, blocksAfter, ← ih]
    rw [minedTexts]
    simp [List.getLast?_cons_cons]

/-- The worker through `n` iterations that end well: `n` calls, `n` status texts,
the counter `n` increments further, and the worker back at the loop head. -/
theorem runWorker_successes (n : Nat) (rest : List RpcOutcome) (p : OverviewPage) (b : Int)
    (c : ClientModel)
    (h : p.m_mining_thread = some { blocks_mined := b, pc := WorkerPc.loopHead })
    (hs : p.m_should_stop_mining = false) (hc : p.clientModel = some c) :
    runWorker (List.replicate n RpcOutcome.returns ++ rest) p =
      runWorker rest
        { p with rpcLog := p.rpcLog ++ List.replicate n generateCall,
                 eventQueue := p.eventQueue ++ minedTexts b n,
                 m_mining_thread :=
                   some { blocks_mined := blocksAfter b n, pc := WorkerPc.loopHead } } := by
  induction n generalizing p b with
  | zero =>
    cases p
    simp only [] at h
    subst h
    simp [minedTexts, blocksAfter]
  | succ n ih =>
    rw [List.replicate_succ, List.cons_append, runWorker_cons_returns _ p b c h hs hc]
    refine (ih _ (wrapInt32 (b + 1)) ?_ ?_ ?_).trans ?_
    · rfl
    · exact hs
    · exact hc
    · simp [minedTexts, blocksAfter, List.replicate_succ]

theorem stopMining_of_active (inflight : RpcOutcome) (p : OverviewPage)
    (h : p.m_mining_active = true) :
    (stopMining inflight p).m_mining_active = false ∧
    (stopMining inflight p).ui.labelMiningStatus = "Mining stopped" ∧
    (stopMining inflight p).ui.startMiningButton = true ∧
    (stopMining inflight p).ui.stopMiningButton = false ∧
    (stopMining inflight p).ui.numThreadsBox = true ∧
    (stopMining inflight p).m_mining_thread = none := by
  simp only [stopMining, h]
  cases ht : p.m_mining_thread <;> simp [join, ht]

theorem stopMining_of_idle (inflight : RpcOutcome) (p : OverviewPage)
    (h : p.m_mining_active = false) : stopMining inflight p = p := by
  simp [stopMining, h]

/-! ## The claims about the mining control -/

/-- C1, as amended: for every state in which mining is active, after
`stopMining()` the start button is enabled and the stop button is disabled,
however the RPC call the worker may be in ends. -/
theorem stopMining_buttons_of_active (inflight : RpcOutcome) (p : OverviewPage)
    (h : p.m_mining_active = true) :
    (stopMining inflight p).ui.startMiningButton = true ∧
    (stopMining inflight p).ui.stopMiningButton = false :=
  ⟨(stopMining_of_active inflight p h).2.2.1, (stopMining_of_active inflight p h).2.2.2.1⟩

/-- C1, the amended statement at a running session: `exampleMining` is active,
and stopping it enables the start button and disables the stop button. -/
theorem stopMining_buttons_of_active_witness :
    exampleMining.m_mining_active = true ∧
    (stopMining RpcOutcome.returns exampleMining).ui.startMiningButton = true ∧
    (stopMining RpcOutcome.returns exampleMining).ui.stopMiningButton = false :=
  ⟨rfl, stopMining_buttons_of_active RpcOutcome.returns exampleMining rfl⟩

/-- C1 as stated fails: on the page as constructed (idle, both buttons disabled
by the constructor) `stopMining()` returns at its guard and the start button
stays disabled. -/
theorem stopMining_buttons_counterexample :
    (init exampleForm).m_mining_active = false ∧
    (stopMining RpcOutcome.returns (init exampleForm)).ui.startMiningButton = false ∧
    ¬ ((stopMining RpcOutcome.returns (init exampleForm)).ui.startMiningButton = true ∧
       (stopMining RpcOutcome.returns (init exampleForm)).ui.stopMiningButton = false) := by
  decide

/-- C3 at its failing input: construct the page, give it a client model and
`exampleWallet`, call `startMining()`, let one RPC call return and the next one
throw, so that the worker leaves its loop. The state reached is idle with a
wallet model, its thread finished but never joined, and `startMining()` there
ends in `std::terminate` instead of yielding a mining state. -/
theorem startMining_after_worker_exit_terminates :
    ∃ s, ((examplePage true).bind startMining).map
        (runWorker [RpcOutcome.returns, RpcOutcome.throws]) = some s ∧
      s.m_mining_active = false ∧
      s.walletModel = some exampleWallet ∧
      s.m_mining_thread = some { blocks_mined := 1, pc := WorkerPc.finished } ∧
      startMining s = none :=
  ⟨_, rfl, rfl, rfl, rfl, rfl⟩

/-- C9 at its failing input: construct the page, give it a client model and
`exampleWallet`, call `startMining()`, and let the first RPC call throw. The
worker leaves its loop and clears `m_mining_active` itself, so the state
reached has `m_mining_active = false` with a thread that is still joinable, and
the assignment in the next `startMining()` overwrites that unjoined thread. -/
theorem worker_exit_leaves_thread_joinable :
    ∃ s, ((examplePage true).bind startMining).map (runWorker [RpcOutcome.throws]) = some s ∧
      s.m_mining_active = false ∧
      s.m_mining_thread.isSome = true ∧
      stopMining RpcOutcome.returns s = s ∧
      startMining s = none :=
  ⟨_, rfl, rfl, rfl, rfl, rfl⟩

/-- C10: `startMining()` fails atomically. Idle without a wallet model it only
writes "No wallet available for mining" to the status label (the flags, the
stored thread count, the widgets' enabled state, the thread and the count of
spawned threads are those of before); with mining active it changes nothing. -/
theorem startMining_fails_atomically (p : OverviewPage) :
    (p.m_mining_active = false → p.walletModel = none →
      startMining p =
        some { p with ui := { p.ui with labelMiningStatus := "No wallet available for mining" } }
      ∧ ∀ q, startMining p = some q →
          q.m_mining_active = p.m_mining_active ∧
          q.m_should_stop_mining = p.m_should_stop_mining ∧
          q.m_num_mining_threads = p.m_num_mining_threads ∧
          q.ui.startMiningButton = p.ui.startMiningButton ∧
          q.ui.stopMiningButton = p.ui.stopMiningButton ∧
          q.ui.numThreadsBox = p.ui.numThreadsBox ∧
          q.m_mining_thread = p.m_mining_thread ∧
          q.threadsSpawned = p.threadsSpawned ∧
          q.ui.labelMiningStatus = "No wallet available for mining") ∧
    (p.m_mining_active = true → startMining p = some p) := by
  refine ⟨fun h hw => ⟨startMining_of_no_wallet p h hw, fun q hq => ?_⟩,
    startMining_of_active p⟩
  rw [startMining_of_no_wallet p h hw] at hq
  cases hq
  simp

/-- C10 at concrete states: on the page as constructed (idle, no wallet model)
`startMining()` only writes the status label, and on the running example
session it returns the page as it is. -/
theorem startMining_fails_atomically_witness :
    startMining (init exampleForm) =
      some { init exampleForm with
        ui := { (init exampleForm).ui with
          labelMiningStatus := "No wallet available for mining" } } ∧
    startMining exampleMining = some exampleMining :=
  ⟨((startMining_fails_atomically (init exampleForm)).1 rfl rfl).1,
   (startMining_fails_atomically exampleMining).2 rfl⟩

/-! ## The claims about the mining loop -/

theorem startMining_session (p q : OverviewPage) (w : WalletModel)
    (hidle : p.m_mining_active = false) (hw : p.walletModel = some w)
    (hstart : startMining p = some q) :
    q.m_mining_thread = some { blocks_mined := 0, pc := WorkerPc.loopHead } ∧
    q.m_should_stop_mining = false ∧
    q.clientModel = p.clientModel ∧
    q.rpcLog = p.rpcLog ∧
    q.eventQueue = p.eventQueue := by
  cases ht : p.m_mining_thread with
  | some t => rw [startMining_of_unjoined p w t hidle hw ht] at hstart; cases hstart
  | none =>
    rw [startMining_of_idle p w hidle hw ht] at hstart
    cases hstart
    simp

theorem processEvents_status (p : OverviewPage) (text : String)
    (h : p.eventQueue.getLast? = some text) :
    (processEvents p).ui.labelMiningStatus = text := by
  have key : ∀ (l : List String) (init : String), l.getLast? = some text →
      l.foldl (fun _ t => t) init = text := by
    intro l
    induction l with
    | nil => intro _ h; simp at h
    | cons a rest ih =>
      intro init h
      cases rest with
      | nil => simpa using h
      | cons b rest2 =>
        rw [List.foldl_cons]
        exact ih a (by simpa [List.getLast?_cons_cons] using h)
  simpa [processEvents] using key p.eventQueue p.ui.labelMiningStatus h

/-- C2: the mining loop started by `startMining()` ends at the first RPC call
that fails. Whatever outcomes `post` would follow, after `pre.length` calls that
returned and one that threw exactly `pre.length + 1` calls were issued, the
worker has left its loop and takes no further step, `m_mining_active` is false,
and the last status posted, which is what the label shows once the GUI thread
has run its queue, is "Error mining block". The last part says the same of a
single step, in any state at all (so also when the GUI thread has set the stop
flag meanwhile): a call that throws posts that status, clears `m_mining_active`
and ends the worker. -/
theorem mining_loop_ends_at_first_failure (p q : OverviewPage) (w : WalletModel)
    (c : ClientModel) (pre post : List RpcOutcome)
    (hidle : p.m_mining_active = false) (hw : p.walletModel = some w)
    (hc : p.clientModel = some c) (hstart : startMining p = some q)
    (hpre : ∀ o ∈ pre, o = RpcOutcome.returns) :
    (runWorker (pre ++ RpcOutcome.throws :: post) q).rpcLog =
      p.rpcLog ++ List.replicate (pre.length + 1) generateCall ∧
    (∃ b, (runWorker (pre ++ RpcOutcome.throws :: post) q).m_mining_thread =
      some { blocks_mined := b, pc := WorkerPc.finished }) ∧
    (runWorker (pre ++ RpcOutcome.throws :: post) q).m_mining_active = false ∧
    (runWorker (pre ++ RpcOutcome.throws :: post) q).eventQueue.getLast? =
      some "Error mining block" ∧
    (processEvents (runWorker (pre ++ RpcOutcome.throws :: post) q)).ui.labelMiningStatus =
      "Error mining block" ∧
    (∀ more, runWorker more (runWorker (pre ++ RpcOutcome.throws :: post) q) =
      runWorker (pre ++ RpcOutcome.throws :: post) q) ∧
    (∀ (s : OverviewPage) (b : Int) (more : List RpcOutcome),
      s.m_mining_thread = some { blocks_mined := b, pc := WorkerPc.inRpc } →
      runWorker more (workerRpcDone RpcOutcome.throws s) =
        { s with eventQueue := s.eventQueue ++ ["Error mining block"],
                 m_mining_active := false,
                 m_mining_thread :=
                   some { blocks_mined := b, pc := WorkerPc.finished } }) := by
  obtain ⟨ht, hs, hcq, hlog, _⟩ := startMining_session p q w hidle hw hstart
  have hpre2 : pre = List.replicate pre.length RpcOutcome.returns :=
    List.eq_replicate_iff.mpr ⟨rfl, hpre⟩
  have hrun : runWorker (pre ++ RpcOutcome.throws :: post) q =
      { q with rpcLog := q.rpcLog ++ List.replicate pre.length generateCall ++ [generateCall],
               eventQueue := q.eventQueue ++ minedTexts 0 pre.length ++ ["Error mining block"],
               m_mining_active := false,
               m_mining_thread :=
                 some { blocks_mined := blocksAfter 0 pre.length, pc := WorkerPc.finished } } := by
    conv_lhs => rw [hpre2]
    rw [runWorker_successes pre.length _ q 0 c ht hs (hcq.trans hc)]
    refine (runWorker_cons_throws post _ (blocksAfter 0 pre.length) c ?_ ?_ ?_).trans ?_
    · rfl
    · exact hs
    · exact hcq.trans hc
    · rfl
  rw [hrun]
  have hlast : (q.eventQueue ++ minedTexts 0 pre.length ++ ["Error mining block"]).getLast? =
      some "Error mining block" := by simp
  refine ⟨?_, ⟨_, rfl⟩, rfl, hlast, processEvents_status _ _ hlast, fun more => ?_,
    fun s b more hsb => ?_⟩
  · simp [hlog, List.replicate_succ', List.append_assoc]
  · exact runWorker_of_finished more _ _ rfl
  · rw [workerRpcDone_throws s b hsb]
    exact runWorker_of_finished more _ b rfl

/-- C2 at a concrete run: on `examplePage true` the outcomes returns, returns,
throws, returns lead to three calls, the last status "Error mining block" and
an inactive page. -/
theorem mining_loop_ends_at_first_failure_witness :
    startMining exampleIdle = some exampleMining ∧
    (runWorker [RpcOutcome.returns, RpcOutcome.returns, RpcOutcome.throws, RpcOutcome.returns]
        exampleMining).rpcLog = [generateCall, generateCall, generateCall] ∧
    (runWorker [RpcOutcome.returns, RpcOutcome.returns, RpcOutcome.throws, RpcOutcome.returns]
        exampleMining).m_mining_active = false ∧
    (processEvents
      (runWorker [RpcOutcome.returns, RpcOutcome.returns, RpcOutcome.throws, RpcOutcome.returns]
        exampleMining)).ui.labelMiningStatus = "Error mining block" := by
  have h := mining_loop_ends_at_first_failure exampleIdle exampleMining exampleWallet
    exampleClient [RpcOutcome.returns, RpcOutcome.returns] [RpcOutcome.returns] rfl rfl rfl rfl
    (by simp)
  exact ⟨rfl, h.1, h.2.2.1, h.2.2.2.2.1⟩

/-- C5: the stop flag is tested at the head of every iteration. With the flag
set, a worker at the head of its loop leaves the loop at once, for every list
of outcomes on offer: no call is issued, nothing is posted, the thread function
ends with `m_mining_active = false`. A worker inside its RPC call finishes that
one iteration (one status is posted) and then leaves, issuing no further call. -/
theorem stop_flag_ends_loop (p : OverviewPage) (w : MiningWorker) (o : RpcOutcome)
    (rest : List RpcOutcome)
    (hflag : p.m_should_stop_mining = true) (ht : p.m_mining_thread = some w) :
    (w.pc = WorkerPc.loopHead → ∀ outcomes, runWorker outcomes p =
      { p with m_mining_active := false,
               m_mining_thread :=
                 some { blocks_mined := w.blocks_mined, pc := WorkerPc.finished } }) ∧
    (w.pc = WorkerPc.inRpc →
      (runWorker (o :: rest) p).rpcLog = p.rpcLog ∧
      (∃ b, (runWorker (o :: rest) p).m_mining_thread =
        some { blocks_mined := b, pc := WorkerPc.finished }) ∧
      (runWorker (o :: rest) p).m_mining_active = false ∧
      (runWorker (o :: rest) p).eventQueue.length = p.eventQueue.length + 1) := by
  obtain ⟨b, pc⟩ := w
  have head : ∀ (s : OverviewPage) (b : Int) (outcomes : List RpcOutcome),
      s.m_should_stop_mining = true →
      s.m_mining_thread = some { blocks_mined := b, pc := WorkerPc.loopHead } →
      runWorker outcomes s =
        { s with m_mining_active := false,
                 m_mining_thread := some { blocks_mined := b, pc := WorkerPc.finished } } := by
    intro s b outcomes hs hth
    cases outcomes with
    | nil => rw [runWorker, workerLoopHead_of_stop s b hth hs]
    | cons o os =>
      rw [runWorker, workerLoopHead_of_stop s b hth hs, workerRpcDone_of_finished o _ b rfl]
      exact runWorker_of_finished os _ b rfl
  constructor
  · intro hpc outcomes
    simp only at hpc
    subst hpc
    exact head p b outcomes hflag ht
  · intro hpc
    simp only at hpc
    subst hpc
    rw [runWorker, workerLoopHead_of_inRpc p b ht]
    cases o with
    | returns =>
      rw [workerRpcDone_returns p b ht]
      have key := head
        { p with eventQueue := p.eventQueue ++ [minedText (wrapInt32 (b + 1))],
                 m_mining_thread :=
                   some { blocks_mined := wrapInt32 (b + 1), pc := WorkerPc.loopHead } }
        (wrapInt32 (b + 1)) rest hflag rfl
      rw [key]
      exact ⟨rfl, ⟨_, rfl⟩, rfl, by simp⟩
    | throws =>
      rw [workerRpcDone_throws p b ht, runWorker_of_finished rest _ b rfl]
      exact ⟨rfl, ⟨_, rfl⟩, rfl, by simp⟩

/-- C5 at concrete states: `exampleMining` with the stop flag set leaves the
loop without a call, and the same page caught inside its first call finishes
that one call and leaves, the call log still holding that one call. -/
theorem stop_flag_ends_loop_witness :
    runWorker [RpcOutcome.returns, RpcOutcome.returns]
        { exampleMining with m_should_stop_mining := true } =
      { exampleMining with
          m_should_stop_mining := true, m_mining_active := false,
          m_mining_thread := some { blocks_mined := 0, pc := WorkerPc.finished } } ∧
    (runWorker [RpcOutcome.returns, RpcOutcome.returns]
        { workerLoopHead exampleMining with m_should_stop_mining := true }).rpcLog =
      [generateCall] ∧
    (runWorker [RpcOutcome.returns, RpcOutcome.returns]
        { workerLoopHead exampleMining with m_should_stop_mining := true }).m_mining_active =
      false :=
  ⟨(stop_flag_ends_loop { exampleMining with m_should_stop_mining := true }
      { blocks_mined := 0, pc := WorkerPc.loopHead } RpcOutcome.returns [] rfl rfl).1 rfl
      [RpcOutcome.returns, RpcOutcome.returns],
   ((stop_flag_ends_loop { workerLoopHead exampleMining with m_should_stop_mining := true }
      { blocks_mined := 0, pc := WorkerPc.inRpc } RpcOutcome.returns [RpcOutcome.returns]
      rfl rfl).2 rfl).1,
   ((stop_flag_ends_loop { workerLoopHead exampleMining with m_should_stop_mining := true }
      { blocks_mined := 0, pc := WorkerPc.inRpc } RpcOutcome.returns [RpcOutcome.returns]
      rfl rfl).2 rfl).2.2.1⟩

theorem workerLoopHead_rpcLog (p : OverviewPage) :
    (workerLoopHead p).rpcLog = p.rpcLog ∨
    (workerLoopHead p).rpcLog = p.rpcLog ++ [generateCall] := by
  unfold workerLoopHead
  split
  · split
    · split
      · left; rfl
      · split
        · left; rfl
        · right; rfl
    · left; rfl
  · left; rfl

theorem workerRpcDone_rpcLog (o : RpcOutcome) (p : OverviewPage) :
    (workerRpcDone o p).rpcLog = p.rpcLog := by
  unfold workerRpcDone
  split
  · split
    · split <;> rfl
    · rfl
  · rfl

/-- Every call the worker issues is the one request `generateCall`. -/
theorem runWorker_rpcLog (outcomes : List RpcOutcome) (p : OverviewPage) :
    ∃ k, (runWorker outcomes p).rpcLog = p.rpcLog ++ List.replicate k generateCall := by
  induction outcomes generalizing p with
  | nil =>
    rw [runWorker]
    rcases workerLoopHead_rpcLog p with h | h
    · exact ⟨0, by simp [h]⟩
    · exact ⟨1, by simp [h]⟩
  | cons o rest ih =>
    rw [runWorker]
    obtain ⟨k, hk⟩ := ih (workerRpcDone o (workerLoopHead p))
    rw [hk, workerRpcDone_rpcLog]
    rcases workerLoopHead_rpcLog p with h | h
    · exact ⟨k, by rw [h]⟩
    · exact ⟨k + 1, by rw [h, List.append_assoc, List.replicate_succ]; rfl⟩

/-- The worker of a fresh session after `n` calls that returned: it is inside
call `n + 1`, its counter is `n` wrapped to 32 bits, and the last status it
posted (for `n ≥ 1`) is the text for that counter. -/
theorem runWorker_after_successes (q : OverviewPage) (c : ClientModel) (n : Nat)
    (ht : q.m_mining_thread = some { blocks_mined := 0, pc := WorkerPc.loopHead })
    (hs : q.m_should_stop_mining = false) (hc : q.clientModel = some c) :
    runWorker (List.replicate n RpcOutcome.returns) q =
      { q with rpcLog := q.rpcLog ++ List.replicate n generateCall ++ [generateCall],
               eventQueue := q.eventQueue ++ minedTexts 0 n,
               m_mining_thread :=
                 some { blocks_mined := blocksAfter 0 n, pc := WorkerPc.inRpc } } := by
  have h := runWorker_successes n [] q 0 c ht hs hc
  rw [List.append_nil] at h
  rw [h, runWorker]
  exact workerLoopHead_of_running _ (blocksAfter 0 n) c rfl hs hc

/-- The counter and the last status of a fresh session after `n ≥ 1` calls
that returned, in terms of the 32-bit wrap. -/
theorem runWorker_after_successes_counter (q : OverviewPage) (c : ClientModel) (n : Nat)
    (ht : q.m_mining_thread = some { blocks_mined := 0, pc := WorkerPc.loopHead })
    (hs : q.m_should_stop_mining = false) (hc : q.clientModel = some c) (h1 : 1 ≤ n) :
    (runWorker (List.replicate n RpcOutcome.returns) q).m_mining_thread =
      some { blocks_mined := wrapInt32 (n : Int), pc := WorkerPc.inRpc } ∧
    (runWorker (List.replicate n RpcOutcome.returns) q).eventQueue.getLast? =
      some (minedText (wrapInt32 (n : Int))) := by
  obtain ⟨m, rfl⟩ : ∃ m, n = m + 1 := ⟨n - 1, by omega⟩
  have hb : blocksAfter 0 (m + 1) = wrapInt32 ((m + 1 : Nat) : Int) := by
    rw [blocksAfter_succ, zero_add]
  rw [runWorker_after_successes q c (m + 1) ht hs hc]
  refine ⟨by simp only [hb], ?_⟩
  simp only []
  rw [List.getLast?_append_of_ne_nil _ (by simp [minedTexts]), minedTexts_getLast, hb]

/-- C6, as amended: every call the worker issues, whatever the outcomes, is
`generate` with the one argument "1"; and for every `n` with `1 ≤ n < 2^31`,
once the first `n` calls of a session have returned the counter `blocks_mined`
is `n`, the status posted is "Mining... Mined n blocks", and the calls issued
are `n + 1` times that same request (the last one in flight). -/
theorem blocks_mined_counts_calls (p q : OverviewPage) (w : WalletModel) (c : ClientModel)
    (n : Nat)
    (hidle : p.m_mining_active = false) (hw : p.walletModel = some w)
    (hc : p.clientModel = some c) (hstart : startMining p = some q)
    (h1 : 1 ≤ n) (hn : n < 2 ^ 31) :
    generateCall = { command := "generate", params := ["1"], uri := "" } ∧
    (∀ outcomes, ∃ k,
      (runWorker outcomes q).rpcLog = p.rpcLog ++ List.replicate k generateCall) ∧
    (runWorker (List.replicate n RpcOutcome.returns) q).rpcLog =
      p.rpcLog ++ List.replicate (n + 1) generateCall ∧
    (runWorker (List.replicate n RpcOutcome.returns) q).m_mining_thread =
      some { blocks_mined := (n : Int), pc := WorkerPc.inRpc } ∧
    (runWorker (List.replicate n RpcOutcome.returns) q).eventQueue.getLast? =
      some ("Mining... Mined " ++ toString (n : Int) ++ " blocks") := by
  obtain ⟨ht, hs, hcq, hlog, _⟩ := startMining_session p q w hidle hw hstart
  have hb : wrapInt32 (n : Int) = (n : Int) := by
    apply wrapInt32_of_range
    · have : (0 : Int) ≤ (n : Int) := Int.natCast_nonneg _
      omega
    · exact_mod_cast hn
  have hcount := runWorker_after_successes_counter q c n ht hs (hcq.trans hc) h1
  rw [hb] at hcount
  refine ⟨rfl, fun outcomes => ?_, ?_, hcount.1, hcount.2⟩
  · rw [← hlog]
    exact runWorker_rpcLog outcomes q
  · rw [runWorker_after_successes q c n ht hs (hcq.trans hc)]
    simp [hlog, List.replicate_succ', List.append_assoc]

/-- C6, the amended statement at `n = 3` on the example session: four calls
issued, the counter at 3, the status "Mining... Mined 3 blocks". -/
theorem blocks_mined_counts_calls_witness :
    (runWorker (List.replicate 3 RpcOutcome.returns) exampleMining).rpcLog =
      [generateCall, generateCall, generateCall, generateCall] ∧
    (runWorker (List.replicate 3 RpcOutcome.returns) exampleMining).m_mining_thread =
      some { blocks_mined := 3, pc := WorkerPc.inRpc } ∧
    (runWorker (List.replicate 3 RpcOutcome.returns) exampleMining).eventQueue.getLast? =
      some "Mining... Mined 3 blocks" := by
  have h := blocks_mined_counts_calls exampleIdle exampleMining exampleWallet exampleClient 3
    rfl rfl rfl rfl (by decide) (by decide)
  exact ⟨h.2.2.1, h.2.2.2.1, h.2.2.2.2⟩

/-- C6 as stated fails at `n = 2^31`: after 2147483648 calls that returned, the
32-bit counter of the example session stands at -2147483648, not at `n`, and
the status posted is "Mining... Mined -2147483648 blocks". -/
theorem blocks_mined_counterexample :
    startMining exampleIdle = some exampleMining ∧
    (runWorker (List.replicate 2147483648 RpcOutcome.returns) exampleMining).m_mining_thread =
      some { blocks_mined := -2147483648, pc := WorkerPc.inRpc } ∧
    (runWorker (List.replicate 2147483648 RpcOutcome.returns) exampleMining).m_mining_thread ≠
      some { blocks_mined := 2147483648, pc := WorkerPc.inRpc } ∧
    (runWorker (List.replicate 2147483648 RpcOutcome.returns)
      exampleMining).eventQueue.getLast? = some "Mining... Mined -2147483648 blocks" := by
  have h := runWorker_after_successes_counter exampleMining exampleClient 2147483648
    rfl rfl rfl (by decide)
  have hb : wrapInt32 ((2147483648 : Nat) : Int) = -2147483648 := by decide
  rw [hb] at h
  refine ⟨rfl, h.1, ?_, ?_⟩
  · rw [h.1]
    decide
  · rw [h.2]
    decide

/-! ## The thread count -/

theorem workerLoopHead_forgetThreadCount (p : OverviewPage) :
    workerLoopHead (forgetThreadCount p) = forgetThreadCount (workerLoopHead p) := by
  unfold workerLoopHead forgetThreadCount workerExit postStatus
  simp only []
  split
  · split
    · split
      · rfl
      · split <;> rfl
    · rfl
  · rfl

theorem workerRpcDone_forgetThreadCount (o : RpcOutcome) (p : OverviewPage) :
    workerRpcDone o (forgetThreadCount p) = forgetThreadCount (workerRpcDone o p) := by
  unfold workerRpcDone forgetThreadCount workerExit postStatus
  simp only []
  split
  · split
    · split <;> rfl
    · rfl
  · rfl

/-- The worker never reads the thread count: running it commutes with
blanking the count out. -/
theorem runWorker_forgetThreadCount (outcomes : List RpcOutcome) (p : OverviewPage) :
    runWorker outcomes (forgetThreadCount p) = forgetThreadCount (runWorker outcomes p) := by
  induction outcomes generalizing p with
  | nil => rw [runWorker, runWorker, workerLoopHead_forgetThreadCount]
  | cons o rest ih =>
    rw [runWorker, runWorker, workerLoopHead_forgetThreadCount,
      workerRpcDone_forgetThreadCount, ih]

/-- On an idle page choosing a thread count changes the box and nothing else. -/
theorem setNumThreads_of_idle (p : OverviewPage) (a : Int)
    (hidle : p.m_mining_active = false) :
    setNumThreads a p = { p with ui := { p.ui with numThreadsBoxValue := a } } := by
  unfold setNumThreads
  split
  · next h => subst h; rfl
  · simp [updateMiningStatus, hidle]

theorem startMining_forgetThreadCount (p : OverviewPage) (a b : Int)
    (hidle : p.m_mining_active = false) :
    (startMining (setNumThreads a p)).map forgetThreadCount =
      (startMining (setNumThreads b p)).map forgetThreadCount := by
  simp only [setNumThreads_of_idle p _ hidle, hidle, startMining, address_not_empty]
  cases p.walletModel <;> cases p.m_mining_thread <;> simp [forgetThreadCount]

/-- C7: the thread count steers nothing but the stored count. From an idle
state, `startMining()` after choosing `a` threads and after choosing `b` threads
end alike, and lead to pages that agree on everything but the count in the box
and in `m_num_mining_threads`; under the same outcomes their workers issue the
same RPC calls and leave the same pages, again up to the count. Whenever a
session starts, exactly one thread is spawned whatever the count, the chosen
count is stored, and a session does start when a wallet model is set and no
unjoined thread is left. -/
theorem thread_count_steers_nothing (p : OverviewPage) (a b : Int)
    (outcomes : List RpcOutcome) (hidle : p.m_mining_active = false) :
    (startMining (setNumThreads a p)).map forgetThreadCount =
      (startMining (setNumThreads b p)).map forgetThreadCount ∧
    (startMining (setNumThreads a p)).map (fun q => (runWorker outcomes q).rpcLog) =
      (startMining (setNumThreads b p)).map (fun q => (runWorker outcomes q).rpcLog) ∧
    (startMining (setNumThreads a p)).map (fun q => forgetThreadCount (runWorker outcomes q)) =
      (startMining (setNumThreads b p)).map
        (fun q => forgetThreadCount (runWorker outcomes q)) ∧
    (∀ q, startMining (setNumThreads a p) = some q → q.m_mining_active = true →
      q.threadsSpawned = p.threadsSpawned + 1 ∧
      q.m_num_mining_threads = a ∧
      q.m_mining_thread = some { blocks_mined := 0, pc := WorkerPc.loopHead }) ∧
    (∀ w, p.walletModel = some w → p.m_mining_thread = none →
      ∃ q, startMining (setNumThreads a p) = some q ∧ q.m_mining_active = true) := by
  have h1 := startMining_forgetThreadCount p a b hidle
  have h3 : (startMining (setNumThreads a p)).map
        (fun q => forgetThreadCount (runWorker outcomes q)) =
      (startMining (setNumThreads b p)).map
        (fun q => forgetThreadCount (runWorker outcomes q)) := by
    have e : (fun q => forgetThreadCount (runWorker outcomes q)) =
        (fun q => runWorker outcomes q) ∘ forgetThreadCount := by
      funext q
      exact (runWorker_forgetThreadCount outcomes q).symm
    rw [e, ← Option.map_map, ← Option.map_map, h1]
  refine ⟨h1, ?_, h3, ?_, ?_⟩
  · have e : (fun q : OverviewPage => (runWorker outcomes q).rpcLog) =
        (fun q : OverviewPage => q.rpcLog) ∘
          (fun q => forgetThreadCount (runWorker outcomes q)) := by
      funext q
      rfl
    rw [e, ← Option.map_map, ← Option.map_map, h3]
  · intro q hq hact
    simp only [setNumThreads_of_idle p _ hidle, hidle, startMining, address_not_empty] at hq
    cases hw : p.walletModel with
    | none =>
      simp only [hw] at hq
      cases hq
      simp [hidle] at hact
    | some w =>
      cases ht : p.m_mining_thread with
      | some t => simp [hw, ht] at hq
      | none =>
        simp only [hw, ht] at hq
        cases hq
        simp
  · intro w hw ht
    refine ⟨_, startMining_of_idle (setNumThreads a p) w ?_ ?_ ?_, rfl⟩
    · simp [setNumThreads_of_idle p _ hidle, hidle]
    · simp [setNumThreads_of_idle p _ hidle, hw]
    · simp [setNumThreads_of_idle p _ hidle, ht]

/-- C7 on the example page: with 1 thread and with 8 threads chosen, the
sessions agree up to the count, issue the same three calls under the same
outcomes, and each spawns one thread. -/
theorem thread_count_steers_nothing_witness :
    exampleIdle.m_mining_active = false ∧
    (startMining (setNumThreads 1 exampleIdle)).map forgetThreadCount =
      (startMining (setNumThreads 8 exampleIdle)).map forgetThreadCount ∧
    (startMining (setNumThreads 1 exampleIdle)).map
        (fun q => (runWorker [RpcOutcome.returns, RpcOutcome.returns] q).rpcLog) =
      (startMining (setNumThreads 8 exampleIdle)).map
        (fun q => (runWorker [RpcOutcome.returns, RpcOutcome.returns] q).rpcLog) ∧
    (startMining (setNumThreads 8 exampleIdle)).map (fun q => q.threadsSpawned) = some 1 ∧
    (startMining (setNumThreads 8 exampleIdle)).map (fun q => q.m_num_mining_threads) =
      some 8 := by
  have h := thread_count_steers_nothing exampleIdle 1 8
    [RpcOutcome.returns, RpcOutcome.returns] rfl
  exact ⟨rfl, h.1, h.2.1, rfl, rfl⟩

/-! ## The balances -/

/-- C8: for every balances record, on a page whose wallet model has an options
model, `setBalance` hands the formatter the confirmed, the unconfirmed and the
immature amount and their sum in 64-bit signed arithmetic, all four with the
display unit of the options model, the separator style ALWAYS and the page's
privacy flag; and the immature label and its caption are visible exactly when
the immature amount is not zero. -/
theorem setBalance_renders (balances : WalletBalances) (p : OverviewPage) (w : WalletModel)
    (o : OptionsModel) (hw : p.walletModel = some w) (ho : w.optionsModel = some o) :
    ∃ q, setBalance balances p = some q ∧
      q.ui.labelBalance = LabelText.formatWithPrivacy o.displayUnit balances.balance
        SeparatorStyle.ALWAYS p.m_privacy ∧
      q.ui.labelUnconfirmed = LabelText.formatWithPrivacy o.displayUnit
        balances.unconfirmed_balance SeparatorStyle.ALWAYS p.m_privacy ∧
      q.ui.labelImmature = LabelText.formatWithPrivacy o.displayUnit
        balances.immature_balance SeparatorStyle.ALWAYS p.m_privacy ∧
      q.ui.labelTotal = LabelText.formatWithPrivacy o.displayUnit
        (wrapInt64 (balances.balance + balances.unconfirmed_balance
          + balances.immature_balance)) SeparatorStyle.ALWAYS p.m_privacy ∧
      (q.ui.labelImmatureVisible = true ↔ balances.immature_balance ≠ 0) ∧
      (q.ui.labelImmatureTextVisible = true ↔ balances.immature_balance ≠ 0) := by
  simp [setBalance, hw, ho, wrapInt64_add]

/-- C8 on the example page, for a record with an immature amount: the total
shown is 700 + 20 + 5 = 725 and the immature label is visible. -/
theorem setBalance_renders_witness :
    ∃ q, setBalance { balance := 700, unconfirmed_balance := 20, immature_balance := 5 }
        exampleIdle = some q ∧
      q.ui.labelTotal = LabelText.formatWithPrivacy 0 725 SeparatorStyle.ALWAYS false ∧
      q.ui.labelImmatureVisible = true := by
  obtain ⟨q, hq, _, _, _, ht, hv, _⟩ :=
    setBalance_renders { balance := 700, unconfirmed_balance := 20, immature_balance := 5 }
      exampleIdle exampleWallet { displayUnit := 0 } rfl rfl
  exact ⟨q, hq, ht, hv.mpr (by decide)⟩

/-! ## The row limit of the transaction list -/

theorem isRowHidden_setRowHidden (hidden : List Nat) (row : Nat) (hide : Bool) (j : Nat) :
    isRowHidden (setRowHidden hidden row hide) j =
      if j = row then hide else isRowHidden hidden j := by
  unfold isRowHidden setRowHidden
  by_cases hj : j = row
  · subst hj
    cases hide <;> by_cases hm : j ∈ hidden <;> simp [hm]
  · cases hide <;> by_cases hm : row ∈ hidden <;> simp [hm, hj]

/-- What the loop of `LimitTransactionRows` leaves: the rows it ran over are
hidden exactly from `NUM_ITEMS` on, the others are as before. -/
theorem isRowHidden_limitRowsLoop (fuel i : Nat) (hidden : List Nat) (j : Nat) :
    isRowHidden (limitRowsLoop fuel i hidden) j =
      if i ≤ j ∧ j < i + fuel then decide (NUM_ITEMS ≤ j) else isRowHidden hidden j := by
  induction fuel generalizing i hidden with
  | zero =>
    have : ¬ (i ≤ j ∧ j < i + 0) := by omega
    rw [limitRowsLoop, if_neg this]
  | succ fuel ih =>
    rw [limitRowsLoop, ih, isRowHidden_setRowHidden]
    by_cases h1 : i + 1 ≤ j ∧ j < i + 1 + fuel
    · have h2 : i ≤ j ∧ j < i + (fuel + 1) := by omega
      simp [h1, h2]
    · by_cases h3 : j = i
      · subst h3
        have h2 : j ≤ j ∧ j < j + (fuel + 1) := by omega
        simp [h1, h2]
      · have h2 : ¬ (i ≤ j ∧ j < i + (fuel + 1)) := by omega
        simp [h1, h2, h3]

theorem filterMap_range_below (rows : List TransactionRecord) (k : Nat) :
    (List.range rows.length).filterMap (fun i => if k ≤ i then none else rows[i]?) =
      rows.take k := by
  induction rows generalizing k with
  | nil => simp
  | cons a rest ih =>
    cases k with
    | zero => simp
    | succ k =>
      rw [List.length_cons, List.range_succ_eq_map, List.filterMap_cons]
      simp only [Nat.le_zero_eq, Nat.succ_ne_zero, if_false, List.getElem?_cons_zero,
        List.take_succ_cons, List.filterMap_map]
      congr 1
      rw [← ih k]
      apply List.filterMap_congr
      intro i _
      simp [Function.comp]

theorem visibleRows_LimitTransactionRows (p : OverviewPage) (f : TransactionFilterProxy)
    (hf : p.filter = some f) (hm : p.ui.listTransactionsHasFilter = true) :
    visibleRows (LimitTransactionRows p) = f.rows.take NUM_ITEMS := by
  simp only [visibleRows, LimitTransactionRows, hf, hm, if_true]
  rw [← filterMap_range_below f.rows NUM_ITEMS]
  apply List.filterMap_congr
  intro i hi
  have hi2 : i < f.rowCount := List.mem_range.mp hi
  rw [isRowHidden_limitRowsLoop]
  have h2 : 0 ≤ i ∧ i < 0 + f.rowCount := by omega
  rw [if_pos h2]
  simp

theorem rows_sorted_descending (f : TransactionFilterProxy)
    (hc : f.sortColumn = some Column.Date) (ho : f.sortOrder = SortOrder.DescendingOrder) :
    List.Sorted (fun a b : TransactionRecord => b.date ≤ a.date) f.rows := by
  simp only [TransactionFilterProxy.rows, hc, ho]
  haveI : IsTotal TransactionRecord (fun a b => b.date ≤ a.date) :=
    ⟨fun a b => le_total b.date a.date⟩
  haveI : IsTrans TransactionRecord (fun a b => b.date ≤ a.date) :=
    ⟨fun _ _ _ hab hbc => le_trans hbc hab⟩
  exact List.sorted_insertionSort _ _

/-- C4: after `LimitTransactionRows()` on a page whose filter proxy `f` is the
model of the list, row `i` below `rowCount` is hidden if and only if
`i ≥ NUM_ITEMS = 5`; so the rows shown are the first `min rowCount 5` rows of the
proxy, in its order, and that order is by date, latest first, when the proxy
sorts on the date column in descending order, as `setWalletModel` sets it up. -/
theorem LimitTransactionRows_hides_from_five (p : OverviewPage) (f : TransactionFilterProxy)
    (hf : p.filter = some f) (hm : p.ui.listTransactionsHasFilter = true) :
    NUM_ITEMS = 5 ∧
    (∀ i, i < f.rowCount →
      (isRowHidden (LimitTransactionRows p).ui.listTransactionsHidden i = true ↔
        NUM_ITEMS ≤ i)) ∧
    ((List.range f.rowCount).filter
      (fun i => !isRowHidden (LimitTransactionRows p).ui.listTransactionsHidden i)).length =
        min f.rowCount 5 ∧
    visibleRows (LimitTransactionRows p) = f.rows.take 5 ∧
    (visibleRows (LimitTransactionRows p)).length = min f.rowCount 5 ∧
    (f.sortColumn = some Column.Date → f.sortOrder = SortOrder.DescendingOrder →
      List.Sorted (fun a b : TransactionRecord => b.date ≤ a.date) f.rows) := by
  have hrow : ∀ i, i < f.rowCount →
      isRowHidden (LimitTransactionRows p).ui.listTransactionsHidden i =
        decide (NUM_ITEMS ≤ i) := by
    intro i hi
    simp only [LimitTransactionRows, hf, hm, if_true]
    rw [isRowHidden_limitRowsLoop]
    have h2 : 0 ≤ i ∧ i < 0 + f.rowCount := by omega
    rw [if_pos h2]
  have hvis := visibleRows_LimitTransactionRows p f hf hm
  refine ⟨rfl, fun i hi => ?_, ?_, hvis, ?_, rows_sorted_descending f⟩
  · rw [hrow i hi]
    simp
  · have e : (List.range f.rowCount).filter
        (fun i => !isRowHidden (LimitTransactionRows p).ui.listTransactionsHidden i) =
        (List.range f.rowCount).filter (fun i => decide (i < 5)) := by
      apply List.filter_congr
      intro i hi
      rw [hrow i (List.mem_range.mp hi)]
      by_cases h : i < 5 <;> simp [NUM_ITEMS, h]
      omega
    rw [e]
    have e2 : ∀ n, ((List.range n).filter (fun i => decide (i < 5))).length = min n 5 := by
      intro n
      induction n with
      | zero => simp
      | succ n ih =>
        rw [List.range_succ, List.filter_append, List.length_append, ih]
        by_cases h : n < 5
        · simp [h]
          omega
        · simp [h]
          omega
    exact e2 _
  · rw [hvis, List.length_take]
    exact Nat.min_comm _ _

/-- C4 on the example page, its list first given a wrong set of hidden rows:
of the six rows of the proxy the five latest are shown, latest first. -/
theorem LimitTransactionRows_hides_from_five_witness :
    visibleRows (LimitTransactionRows
      { exampleIdle with ui := { exampleIdle.ui with listTransactionsHidden := [0, 2] } }) =
      [ { date := 70, address := "c", amount := 3, inactive := false },
        { date := 60, address := "f", amount := 6, inactive := false },
        { date := 40, address := "g", amount := 7, inactive := false },
        { date := 30, address := "a", amount := 1, inactive := false },
        { date := 20, address := "e", amount := 5, inactive := false } ] ∧
    isRowHidden (LimitTransactionRows
      { exampleIdle with ui := { exampleIdle.ui with listTransactionsHidden := [0, 2] }
        }).ui.listTransactionsHidden 5 = true := by
  have h := LimitTransactionRows_hides_from_five
    { exampleIdle with ui := { exampleIdle.ui with listTransactionsHidden := [0, 2] } }
    { sourceModel := exampleWallet.transactionTableModel, dynamicSortFilter := true,
      showInactive := false, sortColumn := some Column.Date,
      sortOrder := SortOrder.DescendingOrder } rfl rfl
  refine ⟨h.2.2.2.1.trans (by decide), (h.2.1 5 (by decide)).mpr (by decide)⟩

/-- The list as `setWalletModel` leaves it: the filter proxy sorts on the date
column, latest first, it is the model of the list, and the rows shown are its
first five. -/
theorem setWalletModel_limits_rows (p : OverviewPage) (m : WalletModel) (o : OptionsModel)
    (ho : m.optionsModel = some o) :
    ∃ q f, setWalletModel (some m) p = some q ∧ q.filter = some f ∧
      f.sourceModel = m.transactionTableModel ∧
      f.sortColumn = some Column.Date ∧ f.sortOrder = SortOrder.DescendingOrder ∧
      f.showInactive = false ∧
      q.ui.listTransactionsHasFilter = true ∧
      visibleRows q = f.rows.take 5 := by
  have key := visibleRows_LimitTransactionRows
    { p with walletModel := some m,
             filter := some { sourceModel := m.transactionTableModel, dynamicSortFilter := true,
                              showInactive := false, sortColumn := some Column.Date,
                              sortOrder := SortOrder.DescendingOrder },
             ui := { p.ui with listTransactionsHasFilter := true,
                               listTransactionsHidden := [] } }
    _ rfl rfl
  simp only [visibleRows, LimitTransactionRows] at key
  by_cases hb : m.cachedBalance.balance = -1 <;>
    simp [setWalletModel, ho, setBalance, updateDisplayUnit, LimitTransactionRows,
      TransactionFilterProxy.new, visibleRows, hb, bind, Option.bind] <;>
    exact key

end OverviewPage
